import Mathlib

/-!
Verification development for the pacsalyzer repository.

The Python sources are shallowly embedded as Lean functions over `List Char`
(strings), `Option` (fallible steps) and plain lists.  Regular-expression
searches from the source are modelled by structurally recursive scanners with
the same leftmost-match semantics; `datetime.strptime` is modelled by the
backtracking alternation CPython's `_strptime` compiles for the used format
directives, followed by the `datetime` constructor's range validation.
Character classes (`\s`, `\d`) are modelled over the code points the data
format uses (ASCII plus the common Unicode whitespace list for `\s`).
-/

namespace Pacsalyzer

/-- The single-quote character, written by code point to keep source text plain. -/
def quoteChar : Char := Char.ofNat 39

/-- Whitespace test mirroring the `\s` class of Python regular expressions
(ASCII whitespace, the C1 separators, and the Unicode space code points). -/
def isWsChar (c : Char) : Bool :=
  decide (c.toNat ∈ [9, 10, 11, 12, 13, 28, 29, 30, 31, 32, 133, 160, 5760,
    8192, 8193, 8194, 8195, 8196, 8197, 8198, 8199, 8200, 8201, 8202,
    8232, 8233, 8239, 8287, 12288])

/-- Scanner for the first single quote: returns the suffix after it. -/
def afterFirstQuote : List Char → Option (List Char)
  | [] => none
  | c :: cs => if c = quoteChar then some cs else afterFirstQuote cs

/-- Content up to the next single quote; `none` when no closing quote exists. -/
def takeUntilQuote : List Char → Option (List Char)
  | [] => none
  | c :: cs =>
    if c = quoteChar then some [] else (takeUntilQuote cs).map (fun v => c :: v)

/-- Embedding of `re.search(r"'([^']*)'", value)`: the regex matches at the
first quote that has a later closing quote, capturing the text between the
first quote and the quote that follows it. -/
def findQuoted (s : List Char) : Option (List Char) :=
  (afterFirstQuote s).bind takeUntilQuote

/-- Does the string start with the three characters of the `UI:` marker? -/
def startsWithUI : List Char → Bool
  | a :: b :: c :: _ => decide (a = 'U') && decide (b = 'I') && decide (c = ':')
  | _ => false

/-- Given the text after a `UI:` marker, `\s*([^\s]+)` matches exactly when a
non-whitespace character remains; the capture is the maximal non-whitespace
run after the leading whitespace. -/
def uiTokenAfter (rest : List Char) : Option (List Char) :=
  let r := rest.dropWhile isWsChar
  if r.isEmpty then none else some (r.takeWhile (fun c => !(isWsChar c)))

/-- Embedding of `re.search(r'UI:\s*([^\s]+)', value)`: scan left to right for
a `UI:` marker at which the rest of the pattern also matches. -/
def findUI : List Char → Option (List Char)
  | [] => none
  | c :: cs =>
    if startsWithUI (c :: cs) then
      match uiTokenAfter (cs.drop 2) with
      | some t => some t
      | none => findUI cs
    else findUI cs

/-- Embedding of `clean_value` from `analyze_weekday_study_distribution.py`:
first the quoted grammar, then the `UI:` grammar, else `None`. -/
def clean_value (value : List Char) : Option (List Char) :=
  match findQuoted value with
  | some v => some v
  | none => findUI value

/-- Whether the string contains a `UI:` marker anywhere (used only to state
"first marker" hypotheses in theorems). -/
def hasUI : List Char → Bool
  | [] => false
  | c :: cs => startsWithUI (c :: cs) || hasUI cs

/-! ### Calendar arithmetic (mirroring Python `datetime.date`) -/

/-- A calendar date as carried by `datetime.date` (year, month, day). -/
structure Date where
  y : Nat
  m : Nat
  d : Nat
deriving DecidableEq, Repr

/-- Gregorian leap-year rule, as in `calendar.isleap`. -/
def isLeap (y : Nat) : Bool :=
  (decide (y % 4 = 0) && decide (y % 100 ≠ 0)) || decide (y % 400 = 0)

/-- Number of days of a month, as validated by the `datetime` constructor. -/
def daysInMonth (y m : Nat) : Nat :=
  if m = 2 then (if isLeap y then 29 else 28)
  else if m = 4 ∨ m = 6 ∨ m = 9 ∨ m = 11 then 30
  else 31

/-- Days in the months before month `m` of year `y` (for `m ≥ 1`). -/
def daysBeforeMonth (y m : Nat) : Nat :=
  ((List.range (m - 1)).map (fun i => daysInMonth y (i + 1))).sum

/-- Proleptic-Gregorian day number of a date; this is `date.toordinal()` in
Python (0001-01-01 has number 1).  Differences and comparisons of valid dates
agree with Python date arithmetic through this number. -/
def toRD (dt : Date) : Nat :=
  365 * (dt.y - 1) + (dt.y - 1) / 4 - (dt.y - 1) / 100 + (dt.y - 1) / 400 +
    daysBeforeMonth dt.y dt.m + dt.d

/-- The weekday names in the fixed Monday-first order used by the script. -/
def weekdays : List String :=
  ["Monday", "Tuesday", "Wednesday", "Thursday", "Friday", "Saturday", "Sunday"]

/-- Weekday name of a date, as produced by `strftime("%A")` in the C locale;
ordinal 1 (0001-01-01) was a Monday. -/
def weekdayName (dt : Date) : String :=
  weekdays.getD ((toRD dt + 6) % 7) ""

/-! ### `datetime.strptime` for the formats `%Y%m%d%H%M%S` and `%Y%m%d`

CPython's `_strptime` compiles `%Y` to `\d\d\d\d`, `%m` to `1[0-2]|0[1-9]|[1-9]`,
`%d` to `3[01]|[12]\d|0[1-9]|[1-9]| [1-9]` (the last alternative is a
space-padded day), `%H` to `2[0-3]|[0-1]\d|\d`, `%M` to `[0-5]\d|\d` and `%S`
to `6[01]|[0-5]\d|\d`, requires the match to consume the whole input, and then
the `datetime` constructor validates the component ranges.  Each two-character
digit alternative is a pair of digit classes, so it is modelled as a two-digit
read constrained to the corresponding value range; alternatives are tried in
regex order with full backtracking. -/

/-- ASCII digit test (the `\d` class over the data's code points). -/
def isDigit (c : Char) : Bool := decide (48 ≤ c.toNat) && decide (c.toNat ≤ 57)

/-- Numeric value of an ASCII digit. -/
def digitVal (c : Char) : Nat := c.toNat - 48

/-- Candidate match of a two-digit-class alternative with value range
`[lo, hi]`. -/
def dig2 (lo hi : Nat) (s : List Char) : List (Nat × List Char) :=
  match s with
  | a :: b :: rest =>
    if isDigit a && isDigit b then
      let v := digitVal a * 10 + digitVal b
      if lo ≤ v ∧ v ≤ hi then [(v, rest)] else []
    else []
  | _ => []

/-- Candidate match of a single-digit-class alternative with value range
`[lo, hi]`. -/
def dig1 (lo hi : Nat) (s : List Char) : List (Nat × List Char) :=
  match s with
  | a :: rest =>
    if isDigit a then
      let v := digitVal a
      if lo ≤ v ∧ v ≤ hi then [(v, rest)] else []
    else []
  | _ => []

/-- `%Y`: exactly four digits. -/
def yCands (s : List Char) : List (Nat × List Char) :=
  match s with
  | a :: b :: c :: d :: rest =>
    if isDigit a && isDigit b && isDigit c && isDigit d then
      [(digitVal a * 1000 + digitVal b * 100 + digitVal c * 10 + digitVal d, rest)]
    else []
  | _ => []

/-- `%m`: `1[0-2]|0[1-9]|[1-9]`. -/
def mCands (s : List Char) : List (Nat × List Char) :=
  dig2 10 12 s ++ dig2 1 9 s ++ dig1 1 9 s

/-- Candidate match of the space-padded alternative ` [lo-hi]`: a literal
space character followed by one digit in `[lo, hi]`. -/
def digSp (lo hi : Nat) (s : List Char) : List (Nat × List Char) :=
  match s with
  | a :: b :: rest =>
    if a = ' ' ∧ isDigit b then
      let v := digitVal b
      if lo ≤ v ∧ v ≤ hi then [(v, rest)] else []
    else []
  | _ => []

/-- `%d`: `3[01]|[12]\d|0[1-9]|[1-9]| [1-9]` — the final alternative accepts a
space-padded day. -/
def dCands (s : List Char) : List (Nat × List Char) :=
  dig2 30 31 s ++ dig2 10 29 s ++ dig2 1 9 s ++ dig1 1 9 s ++ digSp 1 9 s

/-- `%H`: `2[0-3]|[0-1]\d|\d`. -/
def hCands (s : List Char) : List (Nat × List Char) :=
  dig2 20 23 s ++ dig2 0 19 s ++ dig1 0 9 s

/-- `%M`: `[0-5]\d|\d`. -/
def minCands (s : List Char) : List (Nat × List Char) :=
  dig2 0 59 s ++ dig1 0 9 s

/-- `%S`: `6[01]|[0-5]\d|\d`. -/
def sCands (s : List Char) : List (Nat × List Char) :=
  dig2 60 61 s ++ dig2 0 59 s ++ dig1 0 9 s

/-- Backtracking over the alternatives of one directive: try each candidate in
regex order, succeeding with the first one whose continuation succeeds. -/
def tryCands {α : Type} (cands : List (Nat × List Char))
    (k : Nat → List Char → Option α) : Option α :=
  match cands with
  | [] => none
  | (v, r) :: more =>
    match k v r with
    | some x => some x
    | none => tryCands more k

/-- The regex part of `strptime(s, "%Y%m%d%H%M%S")`: first full match in
backtracking order, as `(year, month, day, hour, minute, second)`. -/
def regexYmdHMS (s : List Char) : Option (Nat × Nat × Nat × Nat × Nat × Nat) :=
  tryCands (yCands s) fun y r1 =>
  tryCands (mCands r1) fun mo r2 =>
  tryCands (dCands r2) fun dd r3 =>
  tryCands (hCands r3) fun hh r4 =>
  tryCands (minCands r4) fun mi r5 =>
  tryCands (sCands r5) fun ss r6 =>
  if r6.isEmpty then some (y, mo, dd, hh, mi, ss) else none

/-- `datetime.strptime(s, "%Y%m%d%H%M%S")`: regex match, then the `datetime`
constructor's validation (year ≥ 1, day within the month, second ≤ 59; the
regex already bounds month, hour and minute). -/
def strptimeYmdHMS (s : List Char) : Option (Nat × Nat × Nat × Nat × Nat × Nat) :=
  match regexYmdHMS s with
  | none => none
  | some (y, mo, dd, hh, mi, ss) =>
    if 1 ≤ y ∧ dd ≤ daysInMonth y mo ∧ ss ≤ 59 then some (y, mo, dd, hh, mi, ss)
    else none

/-- The regex part of `strptime(s, "%Y%m%d")`. -/
def regexYmd (s : List Char) : Option (Nat × Nat × Nat) :=
  tryCands (yCands s) fun y r1 =>
  tryCands (mCands r1) fun mo r2 =>
  tryCands (dCands r2) fun dd r3 =>
  if r3.isEmpty then some (y, mo, dd) else none

/-- `datetime.strptime(s, "%Y%m%d")` as used by the institution-name script. -/
def strptimeYmd (s : List Char) : Option Date :=
  match regexYmd s with
  | none => none
  | some (y, mo, dd) =>
    if 1 ≤ y ∧ dd ≤ daysInMonth y mo then some ⟨y, mo, dd⟩ else none

/-! ### Record Normalizer (`preprocess_data`) -/

/-- A raw input record: the JSON objects are string-to-string mappings keyed
by parenthesized tag identifiers. -/
abbrev RawRecord : Type := List (String × String)

/-- `entry.get(tag, "")`: first value stored under the key, default `""`. -/
def getTag (entry : RawRecord) (tag : String) : String :=
  match entry.find? (fun p => decide (p.1 = tag)) with
  | some p => p.2
  | none => ""

/-- The canonical reconstructed record built by `preprocess_data`. -/
structure Event where
  study_uid : String
  weekday : String
  hour : Nat
  date : Date
deriving DecidableEq, Repr

/-- Embedding of the per-record body of `preprocess_data`: extract the three
tag values, require Python-truthiness of all three (`None` and `""` are
falsy), drop fractional seconds from the time, parse the concatenation with
`strptime`, and build the record dictionary; any failure skips the record. -/
def normalizeRecord (entry : RawRecord) : Option Event :=
  match clean_value (getTag entry "(0008,0020)").data,
        clean_value (getTag entry "(0008,0030)").data,
        clean_value (getTag entry "(0020,000D)").data with
  | some sd, some st, some su =>
    if sd = [] ∨ st = [] ∨ su = [] then none
    else
      match strptimeYmdHMS (sd ++ st.takeWhile (fun c => !(decide (c = Char.ofNat 46)))) with
      | some (y, mo, dd, hh, _, _) =>
        some { study_uid := String.mk su, weekday := weekdayName ⟨y, mo, dd⟩,
               hour := hh, date := ⟨y, mo, dd⟩ }
      | none => none
  | _, _, _ => none

/-- Embedding of `preprocess_data`: records are processed in input order and
each one contributes zero or one Event. -/
def preprocess_data (data : List RawRecord) : List Event :=
  data.filterMap normalizeRecord

/-! ### Window Filter -/

/-- The `days_mapping` dictionary shared by both scripts. -/
def days_mapping : List (String × Nat) := [("6m", 180), ("3m", 90), ("1m", 30)]

/-- Embedding of `filter_data_by_timeframe` from
`analyze_weekday_study_distribution.py`.  `datetime.now().date()` is injected
as the explicit parameter `today`; a Python `date` comparison of valid dates
is a comparison of ordinals, i.e. of `toRD` values, and
`today - timedelta(days=n)` is the date with ordinal `toRD today - n`.  The
unrecognized-selector branch raises `ValueError`, modelled as `Except.error`
(the message is carried without its quote characters). -/
def filter_data_by_timeframe (df : List Event) (timeframe : String) (today : Date) :
    Except String (List Event) :=
  if timeframe = "all" then .ok df
  else
    match days_mapping.find? (fun p => decide (p.1 = timeframe)) with
    | some p => .ok (df.filter (fun e => decide (toRD today - p.2 ≤ toRD e.date)))
    | none => .error "Invalid timeframe. Choose from all, 6m, 3m, or 1m."

/-- Embedding of `extract_study_date` from `list_institution_names.py`:
`entry.get("(0008,0020)", None)` is truthiness-tested, then
`re.search(r"DA: '([^']*)'", raw_date)` is applied (scan for a `DA: '` marker
followed by a closing quote). -/
def matchDAAt (l : List Char) : Option (List Char) :=
  match l with
  | a :: b :: c :: d :: e :: rest =>
    if a = 'D' ∧ b = 'A' ∧ c = ':' ∧ d = ' ' ∧ e = quoteChar then takeUntilQuote rest
    else none
  | _ => none

/-- Leftmost-match scan for the `DA: '...'` grammar. -/
def findDA : List Char → Option (List Char)
  | [] => none
  | c :: cs =>
    match matchDAAt (c :: cs) with
    | some v => some v
    | none => findDA cs

/-- `extract_study_date` proper. -/
def extract_study_date (entry : RawRecord) : Option (List Char) :=
  match entry.find? (fun p => decide (p.1 = "(0008,0020)")) with
  | none => none
  | some p => if p.2 = "" then none else findDA p.2.data

/-- Embedding of `filter_data_by_timeframe` from `list_institution_names.py`.
`datetime.now()` is injected as a day ordinal plus a second-of-day; the cutoff
is `now - timedelta(days=days_mapping.get(timeframe, 90))` — an unrecognized
selector silently falls back to 90 days.  A study date parses to midnight, so
`study_datetime >= cutoff` compares `toRD d * 86400` with the cutoff in
seconds.  Entries whose date is missing or unparseable are dropped. -/
def filter_data_by_timeframe_inst (data : List RawRecord) (timeframe : String)
    (nowRD nowSec : Nat) : List RawRecord :=
  if timeframe = "all" then data
  else
    let days := ((days_mapping.find? (fun p => decide (p.1 = timeframe))).map
      (fun p => p.2)).getD 90
    data.filter (fun entry =>
      match extract_study_date entry with
      | none => false
      | some ds =>
        match strptimeYmd ds with
        | none => false
        | some d => decide ((nowRD - days) * 86400 + nowSec ≤ toRD d * 86400))

/-! ### Distribution Aggregator -/

/-- Strict chronological order on dates, which for the valid dates Python can
represent is exactly the `datetime.date` order (tuple order on (y, m, d)). -/
abbrev dateLt (a b : Date) : Prop :=
  a.y < b.y ∨ (a.y = b.y ∧ (a.m < b.m ∨ (a.m = b.m ∧ a.d < b.d)))

/-- Ascending order on (date, weekday, hour) group keys, as produced by
`groupby(["date", "weekday", "hour"])` with its default key sort (dates
chronologically, weekday strings lexicographically by code point — which is
Lean's `String` order — and hours numerically). -/
abbrev key3Le (a b : Date × String × Nat) : Prop :=
  dateLt a.1 b.1 ∨ (a.1 = b.1 ∧ (a.2.1 < b.2.1 ∨ (a.2.1 = b.2.1 ∧ a.2.2 ≤ b.2.2)))

/-- Ascending order on (date, hour) group keys, for `groupby(["date", "hour"])`. -/
abbrev key2Le (a b : Date × Nat) : Prop :=
  dateLt a.1 b.1 ∨ (a.1 = b.1 ∧ a.2 ≤ b.2)

/-- The (date, weekday, hour) group key of an Event. -/
def key3Of (e : Event) : Date × String × Nat := (e.date, e.weekday, e.hour)

/-- The (date, hour) group key of an Event. -/
def key2Of (e : Event) : Date × Nat := (e.date, e.hour)

/-- `["study_uid"].nunique()` for one (date, weekday, hour) group: the number
of distinct identity keys among the Events of the group. -/
def nunique3 (df : List Event) (k : Date × String × Nat) : Nat :=
  (((df.filter (fun e => decide (key3Of e = k))).map (fun e => e.study_uid)).dedup).length

/-- `["study_uid"].nunique()` for one (date, hour) group. -/
def nunique2 (df : List Event) (k : Date × Nat) : Nat :=
  (((df.filter (fun e => decide (key2Of e = k))).map (fun e => e.study_uid)).dedup).length

/-- The grouped table `df.groupby(["date","weekday","hour"])["study_uid"].nunique()`:
one row per distinct key, rows in ascending key order. -/
def groupRows3 (df : List Event) : List ((Date × String × Nat) × Nat) :=
  (List.insertionSort key3Le ((df.map key3Of).dedup)).map (fun k => (k, nunique3 df k))

/-- The grouped table `df.groupby(["date","hour"])["study_uid"].nunique()`. -/
def groupRows2 (df : List Event) : List ((Date × Nat) × Nat) :=
  (List.insertionSort key2Le ((df.map key2Of).dedup)).map (fun k => (k, nunique2 df k))

/-- The row comparison realized by `sort_values(by="study_count",
ascending=False)`: a row may precede another exactly when its count is at
least as large. -/
abbrev countDescLe (a b : (Date × String × Nat) × Nat) : Prop := b.2 ≤ a.2

/-- Relational model of `sort_values(by="study_count", ascending=False)` with
its default `kind="quicksort"`: the output is some permutation of the rows
that is non-increasing on the count column.  Quicksort is not a stable sort,
so which permutation is produced for equal counts is left unspecified — the
relation admits every count-descending rearrangement. -/
def sortValuesCountDesc (rows out : List ((Date × String × Nat) × Nat)) : Prop :=
  List.Perm out rows ∧ out.Pairwise (fun a b => b.2 ≤ a.2)

/-- Executable embedding of `get_top_10_counts`: group, count distinct
identity keys, sort by count descending, keep the first 10 rows.  The sort is
realized here by a stable insertion sort; this is the tie order the program
itself exhibits on small grouped tables (numpy's introsort falls back to a
stable insertion sort below its small-array threshold), and it is one of the
behaviors admitted by `sortValuesCountDesc` — on larger tables the program's
tie order is unspecified, which the relational statements account for. -/
def get_top_10_counts (df : List Event) : List ((Date × String × Nat) × Nat) :=
  (List.insertionSort countDescLe (groupRows3 df)).take 10

/-- The possible results of the program's Top-10: the first 10 rows of an
admissible descending sort of the grouped table. -/
def isTop10Output (df : List Event) (out : List ((Date × String × Nat) × Nat)) : Prop :=
  ∃ sorted, sortValuesCountDesc (groupRows3 df) sorted ∧ out = sorted.take 10

/-- First-occurrence deduplication, used only to phrase the spec's
"natural input iteration order" of groups. -/
def firstDedupAux {α : Type} [DecidableEq α] : List α → List α → List α
  | [], _ => []
  | x :: xs, seen =>
    if x ∈ seen then firstDedupAux xs seen else x :: firstDedupAux xs (x :: seen)

/-- Keys in first-encounter order. -/
def firstDedup {α : Type} [DecidableEq α] (l : List α) : List α := firstDedupAux l []

/-- Modelled from the spec: the Top-N ranking as claim C1 words it — groups
listed in the data's natural input iteration order (first encounter), counts
of distinct identity keys, a stable sort by count descending (ties keeping
that input order), and the first 10 rows. -/
def topTenClaimed (df : List Event) : List ((Date × String × Nat) × Nat) :=
  (List.insertionSort countDescLe
    ((firstDedup (df.map key3Of)).map (fun k => (k, nunique3 df k)))).take 10

/-- One (weekday, hour) entry produced by `plot_boxplots_per_weekday_hour`:
its population is the list handed to `plt.boxplot` for that hour. -/
structure BucketEntry where
  weekday : String
  hour : Nat
  pop : List Nat
deriving DecidableEq, Repr

/-- The data-production part of one loop iteration of
`plot_boxplots_per_weekday_hour`: filter the weekday, and — only when that
slice is non-empty — group it by (date, hour), count distinct identity keys,
and emit for each hour 0..23 the counts of the rows with that hour. -/
def bucketFor (df : List Event) (w : String) : List BucketEntry :=
  let wd := df.filter (fun e => decide (e.weekday = w))
  if wd.isEmpty then []
  else
    (List.range 24).map (fun h =>
      ⟨w, h, ((groupRows2 wd).filter (fun r => decide (r.1.2 = h))).map (fun r => r.2)⟩)

/-- Loop of `plot_boxplots_per_weekday_hour` over the fixed weekday list. -/
def bucketizeAux (df : List Event) : List String → List BucketEntry
  | [] => []
  | w :: ws => bucketFor df w ++ bucketizeAux df ws

/-- The Bucketize operation: all entries produced for Monday..Sunday. -/
def bucketize (df : List Event) : List BucketEntry := bucketizeAux df weekdays

/-- Sum of all per-bucket population totals. -/
def bucketTotal (df : List Event) : Nat :=
  ((bucketize df).map (fun b => b.pop.sum)).sum

/-- Total obtained by grouping the batch by (date, hour) directly. -/
def directTotal (df : List Event) : Nat :=
  ((groupRows2 df).map (fun r => r.2)).sum

/-! ### Concrete sample data used by witnesses and counterexamples -/

/-- A one-character string holding the single quote. -/
def sq : String := String.mk [quoteChar]

/-- A well-formed raw record (the spec's normalizer example). -/
def entryGood : RawRecord :=
  [("(0008,0020)", "DA: " ++ sq ++ "20241006" ++ sq),
   ("(0008,0030)", "TM: " ++ sq ++ "235959.500000" ++ sq),
   ("(0020,000D)", "UI: 1.2.3")]

/-- A second well-formed raw record. -/
def entryGood2 : RawRecord :=
  [("(0008,0020)", "DA: " ++ sq ++ "20240102" ++ sq),
   ("(0008,0030)", "TM: " ++ sq ++ "080000" ++ sq),
   ("(0020,000D)", "UI: 4.5.6")]

/-- A malformed raw record: month 13 is out of range, so the combined string
admits no full `%Y%m%d%H%M%S` parse. -/
def entryBadMonth : RawRecord :=
  [("(0008,0020)", "DA: " ++ sq ++ "20241332" ++ sq),
   ("(0008,0030)", "TM: " ++ sq ++ "120000" ++ sq),
   ("(0020,000D)", "UI: 9.9.9")]

/-- An Event dated 2024-01-01 (a Monday). -/
def ev20240101 : Event := ⟨"u1", "Monday", 9, ⟨2024, 1, 1⟩⟩

/-- An Event dated 2024-12-31 (a Tuesday). -/
def ev20241231 : Event := ⟨"u2", "Tuesday", 9, ⟨2024, 12, 31⟩⟩

/-- An institution-script record with a recent study date. -/
def instEntryNew : RawRecord :=
  [("(0008,0080)", "LO: " ++ sq ++ "SOME CLINIC" ++ sq),
   ("(0008,0020)", "DA: " ++ sq ++ "20241230" ++ sq)]

/-- An institution-script record with an old study date. -/
def instEntryOld : RawRecord :=
  [("(0008,0080)", "LO: " ++ sq ++ "OTHER CLINIC" ++ sq),
   ("(0008,0020)", "DA: " ++ sq ++ "20200101" ++ sq)]

/-! ## Theorems -/

theorem afterFirstQuote_append (a rest : List Char) (h : ∀ x ∈ a, x ≠ quoteChar) :
    afterFirstQuote (a ++ quoteChar :: rest) = some rest := by
  induction a with
  | nil => simp [afterFirstQuote]
  | cons c a ih =>
    have hc : c ≠ quoteChar := h c (by simp)
    simp only [List.cons_append, afterFirstQuote, if_neg hc]
    exact ih fun x hx => h x (by simp [hx])

theorem takeUntilQuote_append (b c : List Char) (h : ∀ x ∈ b, x ≠ quoteChar) :
    takeUntilQuote (b ++ quoteChar :: c) = some b := by
  induction b with
  | nil => simp [takeUntilQuote]
  | cons x b ih =>
    have hx : x ≠ quoteChar := h x (by simp)
    have h2 := ih fun y hy => h y (by simp [hy])
    simp [takeUntilQuote, if_neg hx, h2]

theorem takeUntilQuote_none (l : List Char) (h : ∀ x ∈ l, x ≠ quoteChar) :
    takeUntilQuote l = none := by
  induction l with
  | nil => rfl
  | cons x l ih =>
    have hx : x ≠ quoteChar := h x (by simp)
    have h2 := ih fun y hy => h y (by simp [hy])
    simp [takeUntilQuote, if_neg hx, h2]

theorem findQuoted_none (s : List Char) (h : s.count quoteChar ≤ 1) :
    findQuoted s = none := by
  induction s with
  | nil => rfl
  | cons c cs ih =>
    by_cases hc : c = quoteChar
    · have hz : cs.count quoteChar = 0 := by
        rw [hc] at h
        rw [List.count_cons_self] at h
        omega
      have hnot : ∀ x ∈ cs, x ≠ quoteChar := fun x hx heq =>
        (List.count_eq_zero.mp hz) (heq ▸ hx)
      show (afterFirstQuote (c :: cs)).bind takeUntilQuote = none
      rw [show afterFirstQuote (c :: cs) = some cs from by simp [afterFirstQuote, hc]]
      exact takeUntilQuote_none cs hnot
    · have hle : cs.count quoteChar ≤ (c :: cs).count quoteChar := by
        rw [List.count_cons]
        split <;> omega
      have h2 := ih (le_trans hle h)
      show (afterFirstQuote (c :: cs)).bind takeUntilQuote = none
      rw [show afterFirstQuote (c :: cs) = afterFirstQuote cs from by
        simp [afterFirstQuote, hc]]
      exact h2

theorem dropWhile_all_append (w l : List Char) (h : ∀ x ∈ w, isWsChar x = true) :
    (w ++ l).dropWhile isWsChar = l.dropWhile isWsChar := by
  induction w with
  | nil => rfl
  | cons x w ih =>
    have hx : isWsChar x = true := h x (by simp)
    simp only [List.cons_append, List.dropWhile_cons, hx, if_pos]
    exact ih fun y hy => h y (by simp [hy])

theorem takeWhile_all_append (t r : List Char) (h : ∀ x ∈ t, isWsChar x = false) :
    (t ++ r).takeWhile (fun c => !(isWsChar c)) = t ++ r.takeWhile (fun c => !(isWsChar c)) := by
  induction t with
  | nil => rfl
  | cons x t ih =>
    have hx : isWsChar x = false := h x (by simp)
    simp only [List.cons_append, List.takeWhile_cons, hx]
    rw [ih fun y hy => h y (by simp [hy])]
    rfl

theorem uiTokenAfter_some (w t r : List Char) (hw : ∀ x ∈ w, isWsChar x = true)
    (ht : ∀ x ∈ t, isWsChar x = false) (htne : t ≠ [])
    (hr : r = [] ∨ ∃ c r2, r = c :: r2 ∧ isWsChar c = true) :
    uiTokenAfter (w ++ (t ++ r)) = some t := by
  obtain ⟨c, t2, rfl⟩ : ∃ c t2, t = c :: t2 := by
    cases t with
    | nil => exact absurd rfl htne
    | cons c t2 => exact ⟨c, t2, rfl⟩
  have hc : isWsChar c = false := ht c (by simp)
  have hrt : r.takeWhile (fun x => !(isWsChar x)) = [] := by
    rcases hr with rfl | ⟨d, r2, rfl, hd⟩
    · rfl
    · simp [List.takeWhile_cons, hd]
  have hdw : (w ++ ((c :: t2) ++ r)).dropWhile isWsChar = (c :: t2) ++ r := by
    rw [dropWhile_all_append _ _ hw]
    simp [List.dropWhile_cons, hc]
  have htw : (((c :: t2) ++ r)).takeWhile (fun x => !(isWsChar x)) = c :: t2 := by
    rw [takeWhile_all_append _ _ ht, hrt, List.append_nil]
  simp only [uiTokenAfter, hdw, htw]
  simp

theorem findUI_marker (a rest : List Char) (t : List Char) (ha : hasUI a = false)
    (htok : uiTokenAfter rest = some t) :
    findUI (a ++ ('U' :: 'I' :: ':' :: rest)) = some t := by
  induction a with
  | nil =>
    rw [List.nil_append]
    rw [show findUI ('U' :: 'I' :: ':' :: rest) =
      if startsWithUI ('U' :: 'I' :: ':' :: rest) then
        (match uiTokenAfter rest with
          | some t2 => some t2
          | none => findUI ('I' :: ':' :: rest))
      else findUI ('I' :: ':' :: rest) from rfl]
    have hsw : startsWithUI ('U' :: 'I' :: ':' :: rest) = true := by simp [startsWithUI]
    rw [if_pos hsw, htok]
  | cons c a ih =>
    have ha2 : hasUI a = false := by
      simp only [hasUI, Bool.or_eq_false_iff] at ha
      exact ha.2
    have hsw : startsWithUI (c :: (a ++ ('U' :: 'I' :: ':' :: rest))) = false := by
      match a with
      | [] => simp [startsWithUI]
      | [a1] => simp [startsWithUI]
      | a1 :: a2 :: a3 =>
        have h1 : startsWithUI (c :: a1 :: a2 :: a3) = false := by
          simp only [hasUI, Bool.or_eq_false_iff] at ha
          exact ha.1
        simpa [startsWithUI] using h1
    rw [List.cons_append]
    rw [show findUI (c :: (a ++ ('U' :: 'I' :: ':' :: rest))) =
      if startsWithUI (c :: (a ++ ('U' :: 'I' :: ':' :: rest))) then
        (match uiTokenAfter ((a ++ ('U' :: 'I' :: ':' :: rest)).drop 2) with
          | some t2 => some t2
          | none => findUI (a ++ ('U' :: 'I' :: ':' :: rest)))
      else findUI (a ++ ('U' :: 'I' :: ':' :: rest)) from rfl]
    rw [if_neg (by simp [hsw])]
    exact ih ha2

theorem dropWhile_ne_nil_exists (l : List Char) (h : ¬ (l.dropWhile isWsChar).isEmpty = true) :
    ∃ c ∈ l, isWsChar c = false := by
  induction l with
  | nil => simp [List.dropWhile] at h
  | cons x l ih =>
    by_cases hx : isWsChar x = true
    · simp only [List.dropWhile_cons, hx, if_pos] at h
      obtain ⟨c, hc, hcw⟩ := ih h
      exact ⟨c, by simp [hc], hcw⟩
    · exact ⟨x, by simp, by simpa using hx⟩

theorem findUI_some_sound (s : List Char) (t : List Char) (h : findUI s = some t) :
    ∃ i, startsWithUI (s.drop i) = true ∧ ∃ c ∈ s.drop (i + 3), isWsChar c = false := by
  induction s with
  | nil => simp [findUI] at h
  | cons c cs ih =>
    rw [show findUI (c :: cs) =
      if startsWithUI (c :: cs) then
        (match uiTokenAfter (cs.drop 2) with
          | some t2 => some t2
          | none => findUI cs)
      else findUI cs from rfl] at h
    by_cases hsw : startsWithUI (c :: cs) = true
    · rw [if_pos hsw] at h
      cases htok : uiTokenAfter (cs.drop 2) with
      | some t2 =>
        refine ⟨0, by simpa using hsw, ?_⟩
        unfold uiTokenAfter at htok
        by_cases hemp : ((cs.drop 2).dropWhile isWsChar).isEmpty = true
        · rw [if_pos hemp] at htok
          exact absurd htok (by simp)
        · obtain ⟨d, hd, hdw⟩ := dropWhile_ne_nil_exists _ hemp
          exact ⟨d, by simpa using hd, hdw⟩
      | none =>
        rw [htok] at h
        obtain ⟨i, hi1, hi2⟩ := ih h
        exact ⟨i + 1, by simpa using hi1, by simpa using hi2⟩
    · rw [if_neg hsw] at h
      obtain ⟨i, hi1, hi2⟩ := ih h
      exact ⟨i + 1, by simpa using hi1, by simpa using hi2⟩

theorem startsWithUI_length (l : List Char) (h : startsWithUI l = true) : 3 ≤ l.length := by
  match l with
  | [] => simp [startsWithUI] at h
  | [a] => simp [startsWithUI] at h
  | [a, b] => simp [startsWithUI] at h
  | a :: b :: c :: rest =>
    simp only [List.length_cons]
    omega

/-- Claim C3: the Tag-Value Extractor returns the contents of the unique
single-quoted substring when there is exactly one; with no quotes it returns
the whitespace-terminated token after the first `UI:` marker; and when
neither grammar matches (including the empty string for an absent tag) it
returns the distinguished "no value" result `none` — it is a total function,
so it never raises. -/
theorem extractor_grammars :
    (∀ a b c : List Char, (∀ x ∈ a, x ≠ quoteChar) → (∀ x ∈ b, x ≠ quoteChar) →
      (∀ x ∈ c, x ≠ quoteChar) →
      clean_value (a ++ quoteChar :: (b ++ quoteChar :: c)) = some b) ∧
    (∀ a w t r : List Char,
      (∀ x ∈ a ++ ('U' :: 'I' :: ':' :: (w ++ (t ++ r))), x ≠ quoteChar) →
      hasUI a = false → (∀ x ∈ w, isWsChar x = true) → (∀ x ∈ t, isWsChar x = false) →
      t ≠ [] → (r = [] ∨ ∃ c r2, r = c :: r2 ∧ isWsChar c = true) →
      clean_value (a ++ ('U' :: 'I' :: ':' :: (w ++ (t ++ r)))) = some t) ∧
    (∀ s : List Char, s.count quoteChar ≤ 1 →
      (∀ i < s.length, startsWithUI (s.drop i) = true →
        ∀ c ∈ s.drop (i + 3), isWsChar c = true) →
      clean_value s = none) ∧
    clean_value [] = none := by
  refine ⟨?_, ?_, ?_, rfl⟩
  · intro a b c ha hb hc
    have h1 : afterFirstQuote (a ++ quoteChar :: (b ++ quoteChar :: c)) =
        some (b ++ quoteChar :: c) := afterFirstQuote_append a _ ha
    have h2 : takeUntilQuote (b ++ quoteChar :: c) = some b := takeUntilQuote_append b c hb
    simp [clean_value, findQuoted, h1, h2]
  · intro a w t r hq ha hw ht htne hr
    have hfq : findQuoted (a ++ ('U' :: 'I' :: ':' :: (w ++ (t ++ r)))) = none := by
      refine findQuoted_none _ ?_
      have : (a ++ ('U' :: 'I' :: ':' :: (w ++ (t ++ r)))).count quoteChar = 0 :=
        List.count_eq_zero.mpr fun hmem => (hq quoteChar hmem) rfl
      omega
    have hui : findUI (a ++ ('U' :: 'I' :: ':' :: (w ++ (t ++ r)))) = some t :=
      findUI_marker a _ t ha (uiTokenAfter_some w t r hw ht htne hr)
    simp [clean_value, hfq, hui]
  · intro s hcount hnui
    have hfq : findQuoted s = none := findQuoted_none s hcount
    have hui : findUI s = none := by
      cases hfind : findUI s with
      | none => rfl
      | some t =>
        obtain ⟨i, hi1, c, hc, hcw⟩ := findUI_some_sound s t hfind
        have hlen : 3 ≤ (s.drop i).length := startsWithUI_length _ hi1
        have hilt : i < s.length := by
          have := List.length_drop i s
          omega
        have := hnui i hilt hi1 c hc
        rw [this] at hcw
        exact absurd hcw (by simp)
    simp [clean_value, hfq, hui]

/-- Witness for C3 at concrete inputs from the data format. -/
theorem extractor_grammars_witness :
    clean_value ("DA: ".data ++ quoteChar :: ("20241006".data ++ quoteChar :: [])) =
      some "20241006".data ∧
    clean_value ("Tag ".data ++ ('U' :: 'I' :: ':' :: (" ".data ++ ("1.2.3".data ++ [])))) =
      some "1.2.3".data ∧
    clean_value "no grammar here".data = none ∧
    clean_value [] = none := by
  refine ⟨?_, ?_, ?_, extractor_grammars.2.2.2⟩
  · exact extractor_grammars.1 "DA: ".data "20241006".data [] (by decide) (by decide) (by decide)
  · exact extractor_grammars.2.1 "Tag ".data " ".data "1.2.3".data [] (by decide) (by decide)
      (by decide) (by decide) (by decide) (Or.inl rfl)
  · exact extractor_grammars.2.2.1 "no grammar here".data (by decide) (by decide)

/-- Claim C4: a RawRecord whose date tag extracts to "20241006" and whose
time tag extracts to "235959.500000" (with a nonempty identity key) yields an
Event with the fractional seconds discarded, date 2024-10-06, hour 23 and the
derived weekday "Sunday". -/
theorem normalizer_example (entry : RawRecord) (u : List Char)
    (hd : clean_value (getTag entry "(0008,0020)").data = some "20241006".data)
    (ht : clean_value (getTag entry "(0008,0030)").data = some "235959.500000".data)
    (hu : clean_value (getTag entry "(0020,000D)").data = some u) (hune : u ≠ []) :
    normalizeRecord entry = some ⟨String.mk u, "Sunday", 23, ⟨2024, 10, 6⟩⟩ := by
  have hne : ¬("20241006".data = [] ∨ "235959.500000".data = [] ∨ u = []) := by
    rintro (h | h | h)
    · exact absurd h (by decide)
    · exact absurd h (by decide)
    · exact hune h
  simp only [normalizeRecord, hd, ht, hu]
  rw [if_neg hne]
  rw [show strptimeYmdHMS ("20241006".data ++ "235959.500000".data.takeWhile
      (fun c => !(decide (c = Char.ofNat 46)))) = some (2024, 10, 6, 23, 59, 59) from by decide]
  show some (Event.mk (String.mk u) (weekdayName ⟨2024, 10, 6⟩) 23 ⟨2024, 10, 6⟩) =
    some (Event.mk (String.mk u) "Sunday" 23 ⟨2024, 10, 6⟩)
  rw [show weekdayName ⟨2024, 10, 6⟩ = "Sunday" from by decide]

/-- Witness for C4 at the concrete record `entryGood`. -/
theorem normalizer_example_witness :
    normalizeRecord entryGood = some ⟨"1.2.3", "Sunday", 23, ⟨2024, 10, 6⟩⟩ :=
  (normalizer_example entryGood "1.2.3".data (by decide) (by decide) (by decide)
    (by decide)).trans (by decide)

/-- Claim C5: a malformed RawRecord — date, time or identity tag missing or
yielding no value, or date/time not jointly parseable (such as month 13 in
"20241332") — contributes no Event and is skipped without raising
(`normalizeRecord` is total), and the remaining records of the batch are
still processed. -/
theorem malformed_skipped :
    (∀ pre post : List RawRecord, ∀ bad, normalizeRecord bad = none →
      preprocess_data (pre ++ bad :: post) = preprocess_data pre ++ preprocess_data post) ∧
    normalizeRecord entryBadMonth = none ∧
    (∀ entry, clean_value (getTag entry "(0008,0020)").data = none →
      normalizeRecord entry = none) ∧
    (∀ entry, clean_value (getTag entry "(0008,0030)").data = none →
      normalizeRecord entry = none) ∧
    (∀ entry, clean_value (getTag entry "(0020,000D)").data = none →
      normalizeRecord entry = none) := by
  refine ⟨?_, by decide, ?_, ?_, ?_⟩
  · intro pre post bad hbad
    simp [preprocess_data, List.filterMap_append, List.filterMap_cons, hbad]
  · intro entry h
    simp only [normalizeRecord, h]
  · intro entry h
    simp only [normalizeRecord, h]
    cases clean_value (getTag entry "(0008,0020)").data <;> rfl
  · intro entry h
    simp only [normalizeRecord, h]
    cases clean_value (getTag entry "(0008,0020)").data <;>
      cases clean_value (getTag entry "(0008,0030)").data <;> rfl

/-- Witness for C5: the bad-month record is skipped while its neighbours are
kept, and a record with no tags at all is skipped. -/
theorem malformed_skipped_witness :
    normalizeRecord entryBadMonth = none ∧
    preprocess_data [entryGood, entryBadMonth, entryGood2] =
      preprocess_data [entryGood] ++ preprocess_data [entryGood2] ∧
    normalizeRecord ([] : RawRecord) = none := by
  refine ⟨malformed_skipped.2.1, ?_, ?_⟩
  · exact malformed_skipped.1 [entryGood] [entryGood2] entryBadMonth malformed_skipped.2.1
  · exact malformed_skipped.2.2.1 [] (by decide)

/-- Claim C10: `preprocess_data` is an order-preserving selection of the
input: it distributes over append (Events from earlier records precede those
from later ones) and each single record contributes exactly its own
zero-or-one Event. -/
theorem preprocess_order_preserving :
    (∀ l1 l2 : List RawRecord,
      preprocess_data (l1 ++ l2) = preprocess_data l1 ++ preprocess_data l2) ∧
    (∀ r : RawRecord, preprocess_data [r] = (normalizeRecord r).toList) := by
  constructor
  · intro l1 l2
    simp [preprocess_data, List.filterMap_append]
  · intro r
    cases h : normalizeRecord r <;> simp [preprocess_data, List.filterMap_cons, h]

/-- Claim C8: Top-N on the empty Event batch completes normally with the
empty table. -/
theorem top10_empty : get_top_10_counts [] = [] := rfl

/-- Claim C7: for the recognized selectors the Window Filter returns exactly
the subsequence of Events whose date ordinal is at least the cutoff (today
minus 180/90/30 days), `all` returns the input unchanged, and on the spec's
concrete example (today 2025-01-01) the 30-day window keeps only the
2024-12-31 Event while `all` keeps both. -/
theorem window_filter_semantics :
    (∀ (df : List Event) (today : Date),
      filter_data_by_timeframe df "all" today = .ok df ∧
      filter_data_by_timeframe df "6m" today =
        .ok (df.filter (fun e => decide (toRD today - 180 ≤ toRD e.date))) ∧
      filter_data_by_timeframe df "3m" today =
        .ok (df.filter (fun e => decide (toRD today - 90 ≤ toRD e.date))) ∧
      filter_data_by_timeframe df "1m" today =
        .ok (df.filter (fun e => decide (toRD today - 30 ≤ toRD e.date)))) ∧
    filter_data_by_timeframe [ev20240101, ev20241231] "1m" ⟨2025, 1, 1⟩ =
      .ok [ev20241231] ∧
    filter_data_by_timeframe [ev20240101, ev20241231] "all" ⟨2025, 1, 1⟩ =
      .ok [ev20240101, ev20241231] := by
  refine ⟨fun df today => ⟨rfl, rfl, rfl, rfl⟩, rfl, rfl⟩

/-- Claim C6 counterexample: the institution-name script's Window Filter,
given the unrecognized selector "2m", does not fail — it silently applies the
default 90-day cutoff and returns a filtered result (keeping the recent
record and dropping the old one). -/
theorem window_unknown_counterexample :
    filter_data_by_timeframe_inst [instEntryNew, instEntryOld] "2m"
      (toRD ⟨2025, 1, 1⟩) 0 = [instEntryNew] := by rfl

/-- Claim C6 amended: the analyze script's Window Filter does fail with an
invalid-argument error on every unrecognized selector, but the
institution-name variant instead silently falls back to the 90-day cutoff and
returns a filtered result. -/
theorem window_unknown_amended :
    (∀ (df : List Event) (tf : String) (today : Date),
      tf ≠ "all" → tf ≠ "6m" → tf ≠ "3m" → tf ≠ "1m" →
      filter_data_by_timeframe df tf today =
        .error "Invalid timeframe. Choose from all, 6m, 3m, or 1m.") ∧
    (∀ (data : List RawRecord) (tf : String) (nowRD nowSec : Nat),
      tf ≠ "all" → tf ≠ "6m" → tf ≠ "3m" → tf ≠ "1m" →
      filter_data_by_timeframe_inst data tf nowRD nowSec =
        data.filter (fun entry =>
          match extract_study_date entry with
          | none => false
          | some ds =>
            match strptimeYmd ds with
            | none => false
            | some d => decide ((nowRD - 90) * 86400 + nowSec ≤ toRD d * 86400))) := by
  constructor
  · intro df tf today h0 h1 h2 h3
    unfold filter_data_by_timeframe
    rw [if_neg h0]
    rw [show days_mapping.find? (fun p => decide (p.1 = tf)) = none from by
      simp [days_mapping, List.find?_cons, Ne.symm h1, Ne.symm h2, Ne.symm h3]]
  · intro data tf nowRD nowSec h0 h1 h2 h3
    unfold filter_data_by_timeframe_inst
    rw [if_neg h0]
    rw [show days_mapping.find? (fun p => decide (p.1 = tf)) = none from by
      simp [days_mapping, List.find?_cons, Ne.symm h1, Ne.symm h2, Ne.symm h3]]
    rfl

/-- Witness for the amended C6 at the concrete selector "2m". -/
theorem window_unknown_amended_witness :
    filter_data_by_timeframe [] "2m" ⟨2025, 1, 1⟩ =
      .error "Invalid timeframe. Choose from all, 6m, 3m, or 1m." ∧
    filter_data_by_timeframe_inst [instEntryOld] "2m" (toRD ⟨2025, 1, 1⟩) 0 =
      [instEntryOld].filter (fun entry =>
        match extract_study_date entry with
        | none => false
        | some ds =>
          match strptimeYmd ds with
          | none => false
          | some d => decide ((toRD ⟨2025, 1, 1⟩ - 90) * 86400 + 0 ≤ toRD d * 86400)) := by
  constructor
  · exact window_unknown_amended.1 [] "2m" ⟨2025, 1, 1⟩ (by decide) (by decide) (by decide)
      (by decide)
  · exact window_unknown_amended.2 [instEntryOld] "2m" (toRD ⟨2025, 1, 1⟩) 0 (by decide)
      (by decide) (by decide) (by decide)

theorem bucketFor_length (df : List Event) (w : String) :
    (bucketFor df w).length =
      if (df.filter (fun e => decide (e.weekday = w))).isEmpty then 0 else 24 := by
  simp only [bucketFor]
  split
  · simp_all
  · simp_all

theorem bucketizeAux_length (df : List Event) (ws : List String) :
    (bucketizeAux df ws).length =
      24 * ((ws.filter
        (fun w => !((df.filter (fun e => decide (e.weekday = w))).isEmpty))).length) := by
  induction ws with
  | nil => rfl
  | cons w ws ih =>
    simp only [bucketizeAux, List.length_append, ih, bucketFor_length, List.filter_cons]
    by_cases h : (df.filter (fun e => decide (e.weekday = w))).isEmpty
    · simp [h]
    · simp [h]
      omega

theorem bucketFor_filter_ne (df : List Event) (w w2 : String) (h : w ≠ w2) :
    (bucketFor df w).filter (fun b => decide (b.weekday = w2)) = [] := by
  simp only [bucketFor]
  split
  · rfl
  · simp [List.filter_map, Function.comp, h]

theorem bucketFor_filter_eq (df : List Event) (w : String) :
    (bucketFor df w).filter (fun b => decide (b.weekday = w)) = bucketFor df w := by
  rw [List.filter_eq_self]
  intro b hb
  simp only [bucketFor] at hb
  split at hb
  · simp at hb
  · obtain ⟨h2, _, rfl⟩ := List.mem_map.mp hb
    simp

theorem bucketizeAux_filter_not_mem (df : List Event) (ws : List String) (w2 : String)
    (h : w2 ∉ ws) :
    (bucketizeAux df ws).filter (fun b => decide (b.weekday = w2)) = [] := by
  induction ws with
  | nil => rfl
  | cons w ws ih =>
    have hne : w ≠ w2 := fun heq => h (heq ▸ List.mem_cons_self w ws)
    simp only [bucketizeAux, List.filter_append, bucketFor_filter_ne df w w2 hne,
      ih (fun hm => h (List.mem_cons_of_mem w hm)), List.append_nil]

theorem bucketizeAux_filter_mem (df : List Event) (ws : List String) (w2 : String)
    (hnd : ws.Nodup) (h : w2 ∈ ws) :
    (bucketizeAux df ws).filter (fun b => decide (b.weekday = w2)) = bucketFor df w2 := by
  induction ws with
  | nil => simp at h
  | cons w ws ih =>
    have hw : w ∉ ws := (List.nodup_cons.mp hnd).1
    have hnd2 : ws.Nodup := (List.nodup_cons.mp hnd).2
    rcases List.mem_cons.mp h with rfl | hmem
    · rw [show bucketizeAux df (w2 :: ws) = bucketFor df w2 ++ bucketizeAux df ws from rfl,
        List.filter_append, bucketFor_filter_eq, bucketizeAux_filter_not_mem df ws w2 hw,
        List.append_nil]
    · have hne : w ≠ w2 := fun heq => hw (heq ▸ hmem)
      rw [show bucketizeAux df (w :: ws) = bucketFor df w ++ bucketizeAux df ws from rfl,
        List.filter_append, bucketFor_filter_ne df w w2 hne, ih hnd2 hmem, List.nil_append]

theorem bucketFor_map_hour (df : List Event) (w : String) :
    (bucketFor df w).map (fun b => b.hour) =
      if (df.filter (fun e => decide (e.weekday = w))).isEmpty then []
      else List.range 24 := by
  simp only [bucketFor]
  split
  · simp_all
  · rw [List.map_map]
    simp_all [Function.comp_def]

/-- Claim C2 counterexample: Bucketize applied to the empty batch produces no
(weekday, hour) entries at all — not the claimed 168 — because every weekday
slice is empty and empty weekdays are skipped entirely. -/
theorem bucketize_empty_counterexample : (bucketize []).length ≠ 168 := by decide

/-- Claim C2 amended: Bucketize produces 24 entries (hours 0..23, empty
populations included) for each weekday that has at least one Event, and no
entries for a weekday with no Events; in particular the empty batch yields 0
entries rather than 168. -/
theorem bucketize_amended :
    ∀ df : List Event,
      (bucketize df).length =
        24 * ((weekdays.filter
          (fun w => !((df.filter (fun e => decide (e.weekday = w))).isEmpty))).length) ∧
      (∀ w ∈ weekdays,
        ((bucketize df).filter (fun b => decide (b.weekday = w))).map (fun b => b.hour) =
          if (df.filter (fun e => decide (e.weekday = w))).isEmpty then []
          else List.range 24) := by
  intro df
  constructor
  · exact bucketizeAux_length df weekdays
  · intro w hw
    rw [show bucketize df = bucketizeAux df weekdays from rfl,
      bucketizeAux_filter_mem df weekdays w (by decide) hw, bucketFor_map_hour]

/-- Witness for the amended C2 on a one-Event batch. -/
theorem bucketize_amended_witness :
    (bucketize [ev20240101]).length =
      24 * ((weekdays.filter
        (fun w => !(([ev20240101].filter (fun e => decide (e.weekday = w))).isEmpty))).length) ∧
    ((bucketize [ev20240101]).filter (fun b => decide (b.weekday = "Monday"))).map
        (fun b => b.hour) =
      (if ([ev20240101].filter (fun e => decide (e.weekday = "Monday"))).isEmpty then []
       else List.range 24) :=
  ⟨(bucketize_amended [ev20240101]).1,
   (bucketize_amended [ev20240101]).2 "Monday" (by decide)⟩

/-- Claim C1 counterexample: with two equal-count groups arriving in
descending key order, the code's Top-10 lists them in ascending
(date, weekday, hour) order — the grouping step sorts its keys, and on a
grouped table this small the descending count sort leaves the two equal-count
rows in that grouped order — not in the input iteration order the claim
requires. -/
theorem top10_tiebreak_counterexample :
    get_top_10_counts [⟨"b", "Tuesday", 8, ⟨2024, 1, 2⟩⟩, ⟨"a", "Monday", 8, ⟨2024, 1, 1⟩⟩] ≠
      topTenClaimed [⟨"b", "Tuesday", 8, ⟨2024, 1, 2⟩⟩, ⟨"a", "Monday", 8, ⟨2024, 1, 1⟩⟩] := by
  decide

/-- Claim C1 amended: Top-N groups the Events by (date, weekday, hour),
counts distinct identity keys per group, and returns the first 10 rows of a
count-descending rearrangement of the grouped table — but the sort is not
stable (`sort_values` defaults to quicksort), so equal-count rows are in no
specified order, in particular not the input iteration order.  Every
admissible output carries the distinct-identity-key count of its group on
each row, is non-increasing on counts, and has a fully determined count
column; the executable embedding is one admissible behavior. -/
theorem top10_amended :
    ∀ df : List Event,
      isTop10Output df (get_top_10_counts df) ∧
      ∀ out, isTop10Output df out →
        (∀ r ∈ out, r.2 = nunique3 df r.1) ∧
        out.Pairwise (fun a b => b.2 ≤ a.2) ∧
        out.map (fun r => r.2) = (get_top_10_counts df).map (fun r => r.2) := by
  intro df
  have hcanon : sortValuesCountDesc (groupRows3 df)
      (List.insertionSort countDescLe (groupRows3 df)) := by
    constructor
    · exact List.perm_insertionSort _ _
    · exact @List.sorted_insertionSort _ countDescLe _
        ⟨fun a b => Nat.le_total b.2 a.2⟩ ⟨fun a b c h1 h2 => le_trans h2 h1⟩ _
  refine ⟨⟨_, hcanon, rfl⟩, ?_⟩
  rintro out ⟨sorted, ⟨hperm, hsort⟩, rfl⟩
  refine ⟨?_, ?_, ?_⟩
  · intro r hr
    have h1 : r ∈ sorted := List.take_subset _ _ hr
    have h2 : r ∈ groupRows3 df := hperm.subset h1
    unfold groupRows3 at h2
    obtain ⟨k, hk, rfl⟩ := List.mem_map.mp h2
    rfl
  · exact List.Pairwise.sublist (List.take_sublist _ _) hsort
  · have hmapperm : List.Perm (sorted.map (fun r => r.2))
        ((List.insertionSort countDescLe (groupRows3 df)).map (fun r => r.2)) :=
      (hperm.trans (List.perm_insertionSort countDescLe (groupRows3 df)).symm).map _
    have hs1 : (sorted.map (fun r => r.2)).Pairwise (fun a b : Nat => b ≤ a) := by
      rw [List.pairwise_map]
      exact hsort
    have hs2 : ((List.insertionSort countDescLe (groupRows3 df)).map
        (fun r => r.2)).Pairwise (fun a b : Nat => b ≤ a) := by
      rw [List.pairwise_map]
      exact hcanon.2
    haveI hanti : IsAntisymm Nat (fun a b : Nat => b ≤ a) :=
      ⟨fun a b h1 h2 => le_antisymm h2 h1⟩
    have heq : sorted.map (fun r => r.2) =
        (List.insertionSort countDescLe (groupRows3 df)).map (fun r => r.2) :=
      List.eq_of_perm_of_sorted hmapperm hs1 hs2
    rw [show get_top_10_counts df =
      (List.insertionSort countDescLe (groupRows3 df)).take 10 from rfl]
    rw [List.map_take, List.map_take, heq]

/-- Witness for the amended C1 on a one-Event batch. -/
theorem top10_amended_witness :
    isTop10Output [ev20240101] (get_top_10_counts [ev20240101]) ∧
    (∀ r ∈ get_top_10_counts [ev20240101], r.2 = nunique3 [ev20240101] r.1) ∧
    (get_top_10_counts [ev20240101]).Pairwise
      (fun a b : (Date × String × Nat) × Nat => b.2 ≤ a.2) ∧
    (get_top_10_counts [ev20240101]).map (fun r => r.2) =
      (get_top_10_counts [ev20240101]).map (fun r => r.2) :=
  ⟨(top10_amended [ev20240101]).1,
   ((top10_amended [ev20240101]).2 _ (top10_amended [ev20240101]).1).1,
   ((top10_amended [ev20240101]).2 _ (top10_amended [ev20240101]).1).2.1,
   ((top10_amended [ev20240101]).2 _ (top10_amended [ev20240101]).1).2.2⟩

theorem toFinset_dedup_list {α : Type} [DecidableEq α] (l : List α) :
    l.dedup.toFinset = l.toFinset := by
  ext x
  simp [List.mem_toFinset, List.mem_dedup]

theorem directTotal_eq_finset_sum (df : List Event) :
    directTotal df = ∑ k ∈ (df.map key2Of).toFinset, nunique2 df k := by
  unfold directTotal groupRows2
  rw [List.map_map]
  have hperm : List.Perm ((List.insertionSort key2Le ((df.map key2Of).dedup)).map (nunique2 df))
      (((df.map key2Of).dedup).map (nunique2 df)) :=
    (List.perm_insertionSort _ _).map _
  rw [show ((fun r => r.2) ∘ fun k => (k, nunique2 df k)) = nunique2 df from rfl]
  rw [hperm.sum_eq]
  rw [← List.sum_toFinset _ (List.nodup_dedup _), toFinset_dedup_list]

theorem nunique2_eq_card (df : List Event) (k : Date × Nat) :
    nunique2 df k = ((df.filter (fun e => decide (key2Of e = k))).map
      (fun e => e.study_uid)).toFinset.card := by
  unfold nunique2
  rw [List.card_toFinset]

theorem fiber_card_eq_nunique (df : List Event) (k : Date × Nat) :
    (((df.map (fun e => (key2Of e, e.study_uid))).toFinset).filter
      (fun p => p.1 = k)).card = nunique2 df k := by
  rw [nunique2_eq_card]
  have himg : ((df.map (fun e => (key2Of e, e.study_uid))).toFinset).filter
      (fun p => p.1 = k) =
      ((df.filter (fun e => decide (key2Of e = k))).map
        (fun e => e.study_uid)).toFinset.image (fun u => (k, u)) := by
    ext p
    simp only [Finset.mem_filter, Finset.mem_image, List.mem_toFinset, List.mem_map,
      List.mem_filter, decide_eq_true_eq]
    constructor
    · rintro ⟨⟨e, he, rfl⟩, hfst⟩
      exact ⟨e.study_uid, ⟨e, ⟨he, hfst⟩, rfl⟩, by rw [show key2Of e = k from hfst]⟩
    · rintro ⟨u, ⟨e, ⟨he, hke⟩, rfl⟩, rfl⟩
      refine ⟨⟨e, he, ?_⟩, rfl⟩
      rw [hke]
  rw [himg, Finset.card_image_of_injective]
  intro u v huv
  exact ((Prod.mk.injEq _ _ _ _).mp huv).2

theorem directTotal_eq_card (df : List Event) :
    directTotal df = ((df.map (fun e => (key2Of e, e.study_uid))).toFinset).card := by
  rw [directTotal_eq_finset_sum]
  rw [Finset.card_eq_sum_card_fiberwise
    (f := Prod.fst) (t := (df.map key2Of).toFinset) ?_]
  · exact Finset.sum_congr rfl fun k _ => (fiber_card_eq_nunique df k).symm
  · intro p hp
    simp only [List.mem_toFinset, List.mem_map] at hp ⊢
    obtain ⟨e, he, rfl⟩ := hp
    exact ⟨e, he, rfl⟩

theorem range_sum_ite (n a c : Nat) (g : Nat → Nat) (h : a < n) :
    ((List.range n).map (fun x => if a = x then c + g x else g x)).sum =
      c + ((List.range n).map g).sum := by
  induction n with
  | zero => omega
  | succ n ih =>
    rw [List.range_succ, List.map_append, List.map_append, List.sum_append, List.sum_append]
    by_cases ha : a = n
    · subst ha
      have hmap : (List.range a).map (fun x => if a = x then c + g x else g x) =
          (List.range a).map g := by
        apply List.map_congr_left
        intro x hx
        have hx2 : x < a := List.mem_range.mp hx
        rw [if_neg (by omega)]
      rw [hmap]
      simp
      omega
    · have ha2 : a < n := by omega
      rw [ih ha2]
      simp [ha]
      omega

theorem rows_filter_hour_sum (rows : List ((Date × Nat) × Nat))
    (h : ∀ r ∈ rows, r.1.2 < 24) :
    ((List.range 24).map (fun h2 =>
      ((rows.filter (fun r => decide (r.1.2 = h2))).map (fun r => r.2)).sum)).sum =
      (rows.map (fun r => r.2)).sum := by
  induction rows with
  | nil => simp
  | cons r rows ih =>
    have hR : r.1.2 < 24 := h r (by simp)
    have ihh := ih (fun r2 hr2 => h r2 (by simp [hr2]))
    have hfun : ∀ h2 ∈ List.range 24,
        (((r :: rows).filter (fun r2 => decide (r2.1.2 = h2))).map (fun r2 => r2.2)).sum =
        (if r.1.2 = h2 then
          r.2 + ((rows.filter (fun r2 => decide (r2.1.2 = h2))).map (fun r2 => r2.2)).sum
         else ((rows.filter (fun r2 => decide (r2.1.2 = h2))).map (fun r2 => r2.2)).sum) := by
      intro h2 _
      by_cases hh : r.1.2 = h2
      · simp [List.filter_cons, hh]
      · simp [List.filter_cons, hh]
    rw [List.map_congr_left hfun]
    rw [range_sum_ite 24 r.1.2 r.2 _ hR]
    simp [ihh]

theorem groupRows2_hour_lt (df : List Event) (h : ∀ e ∈ df, e.hour < 24) :
    ∀ r ∈ groupRows2 df, r.1.2 < 24 := by
  intro r hr
  unfold groupRows2 at hr
  obtain ⟨k, hk, rfl⟩ := List.mem_map.mp hr
  have hk2 : k ∈ (df.map key2Of).dedup := (List.perm_insertionSort _ _).subset hk
  have hk3 : k ∈ df.map key2Of := List.mem_dedup.mp hk2
  obtain ⟨e, he, rfl⟩ := List.mem_map.mp hk3
  exact h e he

theorem bucketFor_total (df : List Event) (w : String) (h : ∀ e ∈ df, e.hour < 24) :
    ((bucketFor df w).map (fun b => b.pop.sum)).sum =
      directTotal (df.filter (fun e => decide (e.weekday = w))) := by
  simp only [bucketFor]
  split
  · rename_i hemp
    rw [show df.filter (fun e => decide (e.weekday = w)) = [] from by
      simpa [List.isEmpty_iff] using hemp]
    rfl
  · rw [List.map_map]
    have hlt : ∀ r ∈ groupRows2 (df.filter (fun e => decide (e.weekday = w))), r.1.2 < 24 :=
      groupRows2_hour_lt _ (fun e he => h e (List.mem_of_mem_filter he))
    exact rows_filter_hour_sum _ hlt

theorem pairs_filter_weekday (df : List Event) (w : String)
    (hwd : ∀ e ∈ df, e.weekday = weekdayName e.date) :
    ((df.filter (fun e => decide (e.weekday = w))).map
      (fun e => (key2Of e, e.study_uid))).toFinset =
    ((df.map (fun e => (key2Of e, e.study_uid))).toFinset).filter
      (fun p => weekdayName p.1.1 = w) := by
  ext p
  simp only [List.mem_toFinset, List.mem_map, List.mem_filter, Finset.mem_filter,
    decide_eq_true_eq]
  constructor
  · rintro ⟨e, ⟨he, hew⟩, rfl⟩
    refine ⟨⟨e, he, rfl⟩, ?_⟩
    show weekdayName e.date = w
    rw [← hwd e he, hew]
  · rintro ⟨⟨e, he, rfl⟩, hwn⟩
    refine ⟨e, ⟨he, ?_⟩, rfl⟩
    rw [hwd e he]
    exact hwn

theorem getD_mem (l : List String) (i : Nat) (d0 : String) (h : i < l.length) :
    l.getD i d0 ∈ l := by
  rw [List.getD_eq_getElem l d0 h]
  exact List.getElem_mem h

theorem weekdayName_mem (d : Date) : weekdayName d ∈ weekdays := by
  unfold weekdayName
  exact getD_mem weekdays _ "" (by
    show (toRD d + 6) % 7 < weekdays.length
    have h7 : (toRD d + 6) % 7 < 7 := Nat.mod_lt _ (by omega)
    simpa [weekdays] using h7)

theorem pairs_card_eq_sum_weekdays (df : List Event) :
    ((df.map (fun e => (key2Of e, e.study_uid))).toFinset).card =
      ∑ w ∈ weekdays.toFinset,
        (((df.map (fun e => (key2Of e, e.study_uid))).toFinset).filter
          (fun p => weekdayName p.1.1 = w)).card := by
  apply Finset.card_eq_sum_card_fiberwise
  intro p hp
  simp only [List.mem_toFinset, List.mem_map] at hp
  obtain ⟨e, he, rfl⟩ := hp
  simp only [List.mem_toFinset]
  exact weekdayName_mem e.date

theorem weekday_sum_toFinset (g : String → Nat) :
    ∑ w ∈ weekdays.toFinset, g w = (weekdays.map g).sum :=
  List.sum_toFinset g (by decide)

theorem bucketizeAux_sum (df : List Event) (ws : List String) :
    ((bucketizeAux df ws).map (fun b => b.pop.sum)).sum =
      (ws.map (fun w => ((bucketFor df w).map (fun b => b.pop.sum)).sum)).sum := by
  induction ws with
  | nil => rfl
  | cons w ws ih =>
    simp only [bucketizeAux, List.map_append, List.sum_append, ih, List.map_cons,
      List.sum_cons]

/-- Claim C9: for every Event batch satisfying the Event invariants (hour in
0..23 and weekday derived from the date), the sum of all per-bucket population
totals produced by Bucketize equals the total obtained by grouping the batch
by (date, hour) directly — no Event contribution is lost or double-counted
between the two code paths. -/
theorem bucketize_roundtrip :
    ∀ df : List Event,
      (∀ e ∈ df, e.hour < 24 ∧ e.weekday = weekdayName e.date) →
      bucketTotal df = directTotal df := by
  intro df h
  have hh : ∀ e ∈ df, e.hour < 24 := fun e he => (h e he).1
  have hwd : ∀ e ∈ df, e.weekday = weekdayName e.date := fun e he => (h e he).2
  calc bucketTotal df
      = (weekdays.map (fun w =>
          ((bucketFor df w).map (fun b => b.pop.sum)).sum)).sum := by
        unfold bucketTotal bucketize
        exact bucketizeAux_sum df weekdays
    _ = (weekdays.map (fun w =>
          (((df.map (fun e => (key2Of e, e.study_uid))).toFinset).filter
            (fun p => weekdayName p.1.1 = w)).card)).sum := by
        apply congrArg List.sum
        apply List.map_congr_left
        intro w _
        rw [bucketFor_total df w hh, directTotal_eq_card, pairs_filter_weekday df w hwd]
    _ = ∑ w ∈ weekdays.toFinset,
          (((df.map (fun e => (key2Of e, e.study_uid))).toFinset).filter
            (fun p => weekdayName p.1.1 = w)).card := (weekday_sum_toFinset _).symm
    _ = ((df.map (fun e => (key2Of e, e.study_uid))).toFinset).card :=
        (pairs_card_eq_sum_weekdays df).symm
    _ = directTotal df := (directTotal_eq_card df).symm

/-- Witness for C9 on a concrete two-Event batch. -/
theorem bucketize_roundtrip_witness :
    (∀ e ∈ [ev20240101, ev20241231], e.hour < 24 ∧ e.weekday = weekdayName e.date) ∧
    bucketTotal [ev20240101, ev20241231] = directTotal [ev20240101, ev20241231] :=
  ⟨by decide, bucketize_roundtrip [ev20240101, ev20241231] (by decide)⟩

end Pacsalyzer
